import Mathlib

/-!
Verification development for the key-distribution chat bot (`bot.py`).

The source is a single Python file.  We shallowly embed its store layer
(`add_keys`, `pop_random_key`, `count_keys`, `log_issued`, `get_last_issued`),
its tokenizer (`split_keys`) and the relevant handlers
(`cb_get_year_key`, `add_keys_collect`) as pure Lean functions over an
explicit database state, and prove the specified properties about them.

Strings are modelled as `List Char`.  SQLite's `ORDER BY RANDOM() LIMIT 1`
is modelled by parametrising the pop operation over an arbitrary natural
number used as a selection index, so theorems quantify over every possible
random choice.
-/

namespace KeyBot

/-- Python string, modelled as a list of characters. -/
abbrev Str := List Char

/-- Characters Python's `str.strip()` / `str.split()` treat as whitespace
(the ASCII part together with the Unicode whitespace code points). -/
def pyIsSpace (c : Char) : Bool :=
  c = ' ' || c = '\t' || c = '\n' || c = '\r' || c = '\x0b' || c = '\x0c' ||
  c = '\x1c' || c = '\x1d' || c = '\x1e' || c = '\x1f' || c = '\x85' || c = '\xa0' ||
  c = ' ' || (' ' ≤ c && c ≤ ' ') ||
  c = ' ' || c = ' ' || c = ' ' || c = ' ' || c = '　'

/-- Characters Python's `str.splitlines()` treats as line breaks. -/
def isLineBreak (c : Char) : Bool :=
  c = '\n' || c = '\r' || c = '\x0b' || c = '\x0c' ||
  c = '\x1c' || c = '\x1d' || c = '\x1e' || c = '\x85' ||
  c = ' ' || c = ' '

/-- Python `s.strip()`: drop whitespace from both ends. -/
def pyStrip (s : Str) : Str :=
  ((s.dropWhile pyIsSpace).reverse.dropWhile pyIsSpace).reverse

/-- `txt.replace(",", "\n").replace(";", "\n")`: the two separator
replacements performed by `split_keys` (`for sep in [",", ";"]`). -/
def replaceSeps (s : Str) : Str :=
  s.map (fun c => if c = ',' || c = ';' then '\n' else c)

/-- Splits a character list into its maximal nonempty runs of characters
not satisfying `p`; `acc` holds the reversed current run. -/
def splitRunsAux (p : Char → Bool) : List Char → List Char → List (List Char)
  | [], acc => if acc.isEmpty then [] else [acc.reverse]
  | c :: cs, acc =>
    if p c then
      if acc.isEmpty then splitRunsAux p cs []
      else acc.reverse :: splitRunsAux p cs []
    else splitRunsAux p cs (c :: acc)

/-- Maximal nonempty runs of characters not satisfying `p`.
`splitRuns pyIsSpace` is Python's argumentless `line.split()`;
`splitRuns isLineBreak` gives the nonempty lines of `txt.splitlines()`
(the empty lines `splitlines` keeps are exactly the ones the source
filters out right after, with `if p.strip()`). -/
def splitRuns (p : Char → Bool) (s : Str) : List Str :=
  splitRunsAux p s []

/-- `list(dict.fromkeys(keys))`: de-duplicate keeping first occurrences;
`seen` collects the values already emitted. -/
def dedupAux : List Str → List Str → List Str
  | [], _ => []
  | x :: xs, seen =>
    if x ∈ seen then dedupAux xs seen else x :: dedupAux xs (x :: seen)

def dedupKeepFirst (l : List Str) : List Str :=
  dedupAux l []

/-- `split_keys(text)` from `bot.py` lines 119-131:
strip the input, replace `,` and `;` by newlines, split into stripped
nonempty lines (`[p.strip() for p in txt.splitlines() if p.strip()]`),
split each line on whitespace keeping the stripped nonempty parts
(`for part in line.split(): if part.strip(): keys.append(part.strip())`),
then de-duplicate preserving first-seen order. -/
def split_keys (text : Str) : List Str :=
  if text.isEmpty then []
  else
    let txt := replaceSeps (pyStrip text)
    let raw_parts := ((splitRuns isLineBreak txt).map pyStrip).filter
      (fun p => !p.isEmpty)
    let keys := raw_parts.flatMap (fun line =>
      ((splitRuns pyIsSpace line).map pyStrip).filter (fun p => !p.isEmpty))
    dedupKeepFirst keys

/-! ## The database state

`bot.py` keeps two SQLite tables:
`keys(id INTEGER PRIMARY KEY AUTOINCREMENT, key_text TEXT NOT NULL UNIQUE)`
and
`issued_log(id INTEGER PRIMARY KEY AUTOINCREMENT, user_id, key_text, issued_at)`.
We model each table as a list of rows in insertion (= id) order, together
with the next AUTOINCREMENT value.  Timestamps are seconds since the epoch
in UTC, as integers. -/

/-- A row of the `keys` table. -/
structure Entry where
  id : Nat
  key_text : Str
  deriving DecidableEq, Repr

/-- A row of the `issued_log` table. -/
structure LogEntry where
  logId : Nat
  user_id : Int
  key_text : Str
  issued_at : Int
  deriving DecidableEq, Repr

/-- The persisted store: the `keys` pool, the `issued_log`, and the two
AUTOINCREMENT counters. -/
structure DB where
  pool : List Entry
  nextId : Nat
  log : List LogEntry
  nextLogId : Nat
  deriving DecidableEq, Repr

/-- The key texts currently stored in the pool. -/
def DB.texts (db : DB) : List Str :=
  db.pool.map Entry.key_text

/-- Well-formedness, maintained by the store operations and guaranteed by
the SQLite schema: primary-key ids are distinct and below the next
AUTOINCREMENT value, and `key_text` is UNIQUE. -/
def DB.WF (db : DB) : Prop :=
  (db.pool.map Entry.id).Nodup ∧
  (db.pool.map Entry.key_text).Nodup ∧
  (∀ e ∈ db.pool, e.id < db.nextId) ∧
  (db.log.map LogEntry.logId).Nodup ∧
  (∀ e ∈ db.log, e.logId < db.nextLogId)

instance (db : DB) : Decidable db.WF := by
  unfold DB.WF; infer_instance

/-- The empty database produced by `init_db` on a fresh file
(SQLite AUTOINCREMENT starts issuing ids at 1). -/
def emptyDB : DB := ⟨[], 1, [], 1⟩

/-! ## Store operations -/

/-- `INSERT OR IGNORE INTO keys (key_text) VALUES (?)`: ignored when the
UNIQUE `key_text` is already present, otherwise appended with a fresh id. -/
def insertKey (db : DB) (k : Str) : DB :=
  if db.pool.any (fun e => e.key_text = k) then db
  else { db with pool := db.pool ++ [⟨db.nextId, k⟩], nextId := db.nextId + 1 }

/-- `count_keys()` from `bot.py` lines 70-74: `SELECT COUNT(*) FROM keys`. -/
def count_keys (db : DB) : Nat :=
  db.pool.length

/-- `add_keys(keys)` from `bot.py` lines 45-57: on an empty list return
`count_keys()`; otherwise strip each key, skip the empty ones, insert the
rest with `INSERT OR IGNORE`, and return `SELECT COUNT(*) FROM keys`. -/
def add_keys (keys : List Str) (db : DB) : Nat × DB :=
  if keys.isEmpty then (count_keys db, db)
  else
    let db' := keys.foldl (fun d k =>
      let k := pyStrip k
      if k.isEmpty then d else insertKey d k) db
    (count_keys db', db')

/-- `pop_random_key()` from `bot.py` lines 59-68:
`SELECT id, key_text FROM keys ORDER BY RANDOM() LIMIT 1`, then
`DELETE FROM keys WHERE id = ?`.  The random choice is modelled by the
parameter `r`: the selected row is the one at index `r % pool.length`,
so every row is selectable. -/
def pop_random_key (r : Nat) (db : DB) : Option Str × DB :=
  match db.pool with
  | [] => (none, db)
  | _ :: _ =>
    let e := db.pool.getD (r % db.pool.length) ⟨0, []⟩
    (some e.key_text,
     { db with pool := db.pool.filter (fun x => x.id != e.id) })

/-- `log_issued(user_id, key_text)` from `bot.py` lines 76-80: append an
`issued_log` row stamped with the current UTC time `now`. -/
def log_issued (user_id : Int) (key_text : Str) (now : Int) (db : DB) : DB :=
  { db with log := db.log ++ [⟨db.nextLogId, user_id, key_text, now⟩],
            nextLogId := db.nextLogId + 1 }

/-- `LOCAL_TZ = timezone(timedelta(hours=+6))`: the fixed UTC+6 display
offset, in seconds. -/
def localOffsetSeconds : Int := 6 * 3600

/-- `datetime.astimezone(LOCAL_TZ)` on an epoch timestamp: the same instant
expressed as local wall-clock seconds at the fixed UTC+6 offset. -/
def toLocal (utc : Int) : Int := utc + localOffsetSeconds

/-- The row `ORDER BY id DESC LIMIT 1` returns: the one with the greatest
`id` (ids are unique, so ties cannot arise). -/
def maxByLogId : List LogEntry → Option LogEntry
  | [] => none
  | e :: es =>
    match maxByLogId es with
    | none => some e
    | some m => if e.logId ≤ m.logId then some m else some e

/-- `get_last_issued(user_id)` from `bot.py` lines 82-92:
`SELECT key_text, issued_at FROM issued_log WHERE user_id = ?
ORDER BY id DESC LIMIT 1`, the timestamp converted to `LOCAL_TZ`. -/
def get_last_issued (user_id : Int) (db : DB) : Option (Str × Int) :=
  match maxByLogId (db.log.filter (fun e => e.user_id == user_id)) with
  | none => none
  | some e => some (e.key_text, toLocal e.issued_at)

/-! ## Conversation handlers

The handlers reply with fixed Russian texts; we model each distinct reply
by a constructor carrying the data interpolated into it. -/

/-- `is_admin_user_id(user_id)` from `bot.py` lines 116-117, with the
configured `ADMIN_USER_ID` passed explicitly. -/
def is_admin_user_id (admin : Int) (user_id : Int) : Bool :=
  admin != 0 && user_id == admin

/-- The per-user FSM state: `AddKeysFlow.waiting_for_keys` is the single
declared state; `idle` models having no state set (after `state.clear()`). -/
inductive ConvState where
  | idle
  | waiting_for_keys
  deriving DecidableEq, Repr

/-- The replies the modelled handlers can send. -/
inductive Reply where
  /-- The permission-denied texts (`"Эта функция доступна только владельцу."`,
  `"Недостаточно прав."`). -/
  | permissionDenied
  /-- `"Ключи закончились — база пуста."` -/
  | poolEmpty
  /-- The issued-key message interpolating the key text. -/
  | keyIssued (k : Str)
  /-- `"Не нашёл валидных ключей. ..."` -/
  | askRetry
  /-- `"Готово. Всего ключей в базе: <b>{total}</b>"` -/
  | addedTotal (total : Nat)
  deriving DecidableEq, Repr

/-- `cb_get_year_key(callback)` from `bot.py` lines 148-162: deny
non-admins; otherwise pop a random key (`r` models the random choice,
`now` the current UTC time): reply pool-empty when none, else log the
issuance and reply with the key. -/
def cb_get_year_key (admin uid : Int) (r : Nat) (now : Int) (db : DB) :
    DB × Reply :=
  if !is_admin_user_id admin uid then
    (db, Reply.permissionDenied)
  else
    match pop_random_key r db with
    | (none, db') => (db', Reply.poolEmpty)
    | (some k, db') => (log_issued uid k now db', Reply.keyIssued k)

/-- `add_keys_collect(message, state)` from `bot.py` lines 194-207, the
handler registered for `AddKeysFlow.waiting_for_keys`: a non-admin sender
gets `state.clear()` and a denial; otherwise the text
(`(message.text or "").strip()`, `None` modelled as `none`) is parsed with
`split_keys`; no tokens leaves the state untouched with a retry prompt;
otherwise `add_keys` runs, the state is cleared and the new total reported. -/
def add_keys_collect (admin uid : Int) (mtext : Option Str) (db : DB) :
    DB × ConvState × Reply :=
  if !is_admin_user_id admin uid then
    (db, ConvState.idle, Reply.permissionDenied)
  else
    let text := pyStrip (mtext.getD [])
    let keys := split_keys text
    if keys.isEmpty then
      (db, ConvState.waiting_for_keys, Reply.askRetry)
    else
      let res := add_keys keys db
      (res.2, ConvState.idle, Reply.addedTotal res.1)

/-! ## Configuration and startup -/

/-- The hardcoded fallback in
`BOT_TOKEN = os.getenv("BOT_TOKEN") or "8211678683:AAFM..."`
(`bot.py` line 17). -/
def fallbackToken : String := "8211678683:AAFM8zcP3U2R6kTZmRZf2LyThhrbixD-2kk"

/-- The placeholder `main()` checks against (`bot.py` line 211). -/
def placeholderToken : String := "ВАШ_ТОКЕН_ЗДЕСЬ"

/-- `BOT_TOKEN` as computed at import time from the environment:
Python's `or` falls through to the hardcoded token when `os.getenv`
returns `None` or the empty (falsy) string. -/
def BOT_TOKEN (env : Option String) : String :=
  match env with
  | none => fallbackToken
  | some s => if s = "" then fallbackToken else s

/-- The startup guard in `main()` (`bot.py` lines 211-213): the process
logs and returns before serving traffic exactly when `BOT_TOKEN` equals
the placeholder. -/
def startup_refuses (env : Option String) : Bool :=
  BOT_TOKEN env == placeholderToken

/-! ## Sequences of pops

`popSeq rs db` performs one `pop_random_key` per element of `rs` (each
element supplying that call's random choice) and collects the successful
results in order. -/

def popSeq : List Nat → DB → List Str × DB
  | [], db => ([], db)
  | r :: rs, db =>
    match pop_random_key r db with
    | (none, db') => popSeq rs db'
    | (some k, db') =>
      let rest := popSeq rs db'
      (k :: rest.1, rest.2)

/-- A concrete well-formed two-key database used to instantiate the
universally quantified theorems. -/
def dbW : DB := ⟨[⟨1, "a".data⟩, ⟨2, "b".data⟩], 3, [], 1⟩

/-- The row `pop_random_key` selects on a nonempty pool (the row of the
`SELECT ... ORDER BY RANDOM() LIMIT 1`). -/
def selectedEntry (r : Nat) (db : DB) : Entry :=
  db.pool.getD (r % db.pool.length) ⟨0, []⟩

/-! ## Lemmas about the tokenizer -/

lemma mem_pyStrip {c : Char} {s : Str} (h : c ∈ pyStrip s) : c ∈ s := by
  unfold pyStrip at h
  rw [List.mem_reverse] at h
  have h1 := (List.dropWhile_sublist (p := pyIsSpace)).mem h
  rw [List.mem_reverse] at h1
  exact (List.dropWhile_sublist (p := pyIsSpace)).mem h1

lemma replaceSeps_no_sep {c : Char} {s : Str} (h : c ∈ replaceSeps s) :
    c ≠ ',' ∧ c ≠ ';' := by
  unfold replaceSeps at h
  rw [List.mem_map] at h
  obtain ⟨c0, -, rfl⟩ := h
  by_cases h0 : c0 = ',' || c0 = ';'
  · simp [h0]
  · rw [if_neg h0]
    simpa using h0

lemma splitRunsAux_spec (p : Char → Bool) (l : List Char) :
    ∀ (acc : List Char), (∀ c ∈ acc, p c = false) →
    ∀ part ∈ splitRunsAux p l acc,
      part ≠ [] ∧ ∀ c ∈ part, p c = false ∧ (c ∈ acc ∨ c ∈ l) := by
  induction l with
  | nil =>
    intro acc hacc part hpart
    cases acc with
    | nil => simp [splitRunsAux] at hpart
    | cons a as =>
      simp only [splitRunsAux, List.isEmpty_cons, if_neg] at hpart
      simp only [Bool.false_eq_true, if_false, List.mem_singleton] at hpart
      subst hpart
      refine ⟨by simp, fun c hc => ?_⟩
      rw [List.mem_reverse] at hc
      exact ⟨hacc c hc, Or.inl hc⟩
  | cons c cs ih =>
    intro acc hacc part hpart
    simp only [splitRunsAux] at hpart
    by_cases hpc : p c = true
    · rw [if_pos hpc] at hpart
      have fromRec : part ∈ splitRunsAux p cs [] →
          part ≠ [] ∧ ∀ ch ∈ part, p ch = false ∧ (ch ∈ acc ∨ ch ∈ c :: cs) := by
        intro hrec
        have h := ih [] (by simp) part hrec
        refine ⟨h.1, fun ch hch => ⟨(h.2 ch hch).1, ?_⟩⟩
        rcases (h.2 ch hch).2 with hx | hx
        · simp at hx
        · exact Or.inr (List.mem_cons_of_mem _ hx)
      by_cases hae : acc.isEmpty
      · rw [if_pos hae] at hpart
        exact fromRec hpart
      · rw [if_neg hae] at hpart
        rcases List.mem_cons.mp hpart with hpe | hpart'
        · subst hpe
          have hane : acc ≠ [] := by
            intro hnil; rw [hnil] at hae; simp at hae
          refine ⟨by simpa using hane, fun ch hch => ?_⟩
          rw [List.mem_reverse] at hch
          exact ⟨hacc ch hch, Or.inl hch⟩
        · exact fromRec hpart'
    · rw [if_neg hpc] at hpart
      have hacc' : ∀ x ∈ c :: acc, p x = false := by
        intro x hx
        rcases List.mem_cons.mp hx with rfl | hx
        · simpa using hpc
        · exact hacc x hx
      have h := ih (c :: acc) hacc' part hpart
      refine ⟨h.1, fun ch hch => ⟨(h.2 ch hch).1, ?_⟩⟩
      rcases (h.2 ch hch).2 with hx | hx
      · rcases List.mem_cons.mp hx with rfl | hx
        · exact Or.inr (List.mem_cons_self _ _)
        · exact Or.inl hx
      · exact Or.inr (List.mem_cons_of_mem _ hx)

lemma splitRuns_spec {p : Char → Bool} {s : Str} {part : Str}
    (h : part ∈ splitRuns p s) :
    part ≠ [] ∧ ∀ c ∈ part, p c = false ∧ c ∈ s := by
  have := splitRunsAux_spec p s [] (by simp) part h
  refine ⟨this.1, fun c hc => ⟨(this.2 c hc).1, ?_⟩⟩
  rcases (this.2 c hc).2 with hx | hx
  · simp at hx
  · exact hx

lemma dedupAux_subset : ∀ (l seen : List Str), ∀ x ∈ dedupAux l seen, x ∈ l := by
  intro l
  induction l with
  | nil => simp [dedupAux]
  | cons a t ih =>
    intro seen x hx
    simp only [dedupAux] at hx
    by_cases h : a ∈ seen
    · rw [if_pos h] at hx
      exact List.mem_cons_of_mem _ (ih seen x hx)
    · rw [if_neg h] at hx
      rcases List.mem_cons.mp hx with rfl | hx
      · exact List.mem_cons_self _ _
      · exact List.mem_cons_of_mem _ (ih _ x hx)

lemma dedupAux_nodup : ∀ (l seen : List Str),
    (dedupAux l seen).Nodup ∧ ∀ x ∈ dedupAux l seen, x ∉ seen := by
  intro l
  induction l with
  | nil => simp [dedupAux]
  | cons a t ih =>
    intro seen
    simp only [dedupAux]
    by_cases h : a ∈ seen
    · rw [if_pos h]
      exact ih seen
    · rw [if_neg h]
      obtain ⟨hnd, hmem⟩ := ih (a :: seen)
      refine ⟨List.nodup_cons.mpr ⟨fun hin => ?_, hnd⟩, fun x hx => ?_⟩
      · exact hmem a hin (List.mem_cons_self _ _)
      · rcases List.mem_cons.mp hx with rfl | hx
        · exact h
        · exact fun hseen => hmem x hx (List.mem_cons_of_mem _ hseen)

lemma dedupKeepFirst_nodup (l : List Str) : (dedupKeepFirst l).Nodup :=
  (dedupAux_nodup l []).1

lemma dedupKeepFirst_subset {l : List Str} {x : Str} (h : x ∈ dedupKeepFirst l) :
    x ∈ l :=
  dedupAux_subset l [] x h

/-! ## Lemmas about `pop_random_key` -/

/-- On an empty pool the pop returns the empty signal and leaves the
database unchanged. -/
lemma pop_random_key_nil (r : Nat) (db : DB) (h : db.pool = []) :
    pop_random_key r db = (none, db) := by
  obtain ⟨pool, nid, log, nlid⟩ := db
  cases pool with
  | nil => rfl
  | cons a t => simp at h

/-- On a nonempty pool the pop returns the selected row's text and deletes
that row by its id. -/
lemma pop_random_key_cons (r : Nat) (db : DB) (h : db.pool ≠ []) :
    pop_random_key r db =
      (some (selectedEntry r db).key_text,
       { db with pool := db.pool.filter (fun x => x.id != (selectedEntry r db).id) }) := by
  obtain ⟨pool, nid, log, nlid⟩ := db
  cases pool with
  | nil => simp at h
  | cons a t => rfl

/-- The row selected by `ORDER BY RANDOM() LIMIT 1` is a row of the table. -/
lemma selected_mem {db : DB} (h : db.pool ≠ []) (r : Nat) :
    selectedEntry r db ∈ db.pool := by
  have hlen : 0 < db.pool.length := List.length_pos.mpr h
  have hlt : r % db.pool.length < db.pool.length := Nat.mod_lt _ hlen
  rw [selectedEntry, List.getD_eq_getElem _ _ hlt]
  exact List.getElem_mem hlt

lemma pop_none_iff (r : Nat) (db : DB) :
    (pop_random_key r db).1 = none ↔ db.pool = [] := by
  by_cases hp : db.pool = []
  · simp [pop_random_key_nil r db hp, hp]
  · simp [pop_random_key_cons r db hp, hp]

/-- A pop that reports a key came from a nonempty pool, and determines the
result components. -/
lemma pop_some_eq {r : Nat} {db : DB} {k : Str} {db' : DB}
    (hp : pop_random_key r db = (some k, db')) :
    db.pool ≠ [] ∧ k = (selectedEntry r db).key_text ∧
    db' = { db with pool := db.pool.filter (fun x => x.id != (selectedEntry r db).id) } := by
  by_cases hne : db.pool = []
  · rw [pop_random_key_nil r db hne] at hp
    exact absurd (congrArg Prod.fst hp) (by simp)
  · rw [pop_random_key_cons r db hne] at hp
    have h1 := congrArg Prod.fst hp
    have h2 := congrArg Prod.snd hp
    simp only at h1 h2
    exact ⟨hne, by injection h1.symm, h2.symm⟩

/-- Deleting one present row by its primary key shrinks the table by
exactly one row. -/
lemma length_filter_ne_id {l : List Entry} {e : Entry}
    (hnd : (l.map Entry.id).Nodup) (he : e ∈ l) :
    (l.filter (fun x => x.id != e.id)).length + 1 = l.length := by
  induction l with
  | nil => cases he
  | cons a t ih =>
    rw [List.map_cons, List.nodup_cons] at hnd
    rcases List.mem_cons.mp he with rfl | het
    · have hkeep : ∀ x ∈ t, (x.id != e.id) = true := by
        intro x hx
        have : x.id ≠ e.id := fun hEq => hnd.1 (hEq ▸ List.mem_map_of_mem Entry.id hx)
        simpa using this
      simp [List.filter_cons, List.filter_eq_self.mpr hkeep]
    · have hane : a.id ≠ e.id := by
        intro hEq
        exact hnd.1 (by rw [hEq]; exact List.mem_map_of_mem Entry.id het)
      have : (a.id != e.id) = true := by simpa using hane
      simp only [List.filter_cons, this, if_pos, List.length_cons]
      rw [← ih hnd.2 het]

/-- A pop that reports the empty signal leaves the database unchanged. -/
lemma pop_none_eq {r : Nat} {db : DB} {db' : DB}
    (hp : pop_random_key r db = (none, db')) : db' = db := by
  by_cases hne : db.pool = []
  · rw [pop_random_key_nil r db hne] at hp
    exact (congrArg Prod.snd hp).symm
  · rw [pop_random_key_cons r db hne] at hp
    exact absurd (congrArg Prod.fst hp) (by simp)

lemma pop_some_spec {db : DB} (h : db.WF) {r : Nat} {k : Str} {db' : DB}
    (hp : pop_random_key r db = (some k, db')) :
    k ∈ db.texts ∧
    db'.pool.length + 1 = db.pool.length ∧
    k ∉ db'.texts ∧
    (∀ t, t ≠ k → (t ∈ db'.texts ↔ t ∈ db.texts)) ∧
    db'.WF ∧ db'.log = db.log := by
  obtain ⟨hid, htext, hlt, hlog, hloglt⟩ := h
  obtain ⟨hne, hk, hdb'⟩ := pop_some_eq hp
  set e := selectedEntry r db with hedef
  have hemem : e ∈ db.pool := selected_mem hne r
  subst hk
  subst hdb'
  have hsubpool : List.Sublist (db.pool.filter (fun x => x.id != e.id)) db.pool :=
    List.filter_sublist db.pool
  refine ⟨List.mem_map_of_mem Entry.key_text hemem, ?_, ?_, ?_, ?_, rfl⟩
  · exact length_filter_ne_id hid hemem
  · intro hmem
    rw [DB.texts, List.mem_map] at hmem
    obtain ⟨x, hxmem, hxtext⟩ := hmem
    have hxpool : x ∈ db.pool := hsubpool.mem hxmem
    have hxe : x = e := List.inj_on_of_nodup_map htext hxpool hemem hxtext
    have := (List.mem_filter.mp hxmem).2
    rw [hxe] at this
    simp at this
  · intro t hts
    constructor
    · intro hmem
      rw [DB.texts, List.mem_map] at hmem ⊢
      obtain ⟨x, hxmem, hxtext⟩ := hmem
      exact ⟨x, hsubpool.mem hxmem, hxtext⟩
    · intro hmem
      rw [DB.texts, List.mem_map] at hmem ⊢
      obtain ⟨x, hxmem, hxtext⟩ := hmem
      refine ⟨x, List.mem_filter.mpr ⟨hxmem, ?_⟩, hxtext⟩
      have hxe : x ≠ e := by
        intro hEq
        exact hts (by rw [← hxtext, hEq])
      have : x.id ≠ e.id := fun hEq =>
        hxe (List.inj_on_of_nodup_map hid hxmem hemem hEq)
      simpa using this
  · refine ⟨(hid.sublist (hsubpool.map Entry.id)), (htext.sublist (hsubpool.map Entry.key_text)),
      fun x hx => hlt x (hsubpool.mem hx), hlog, hloglt⟩

/-- A pop keeps the remaining pool's texts inside the old texts. -/
lemma pop_texts_subset {r : Nat} {db db' : DB} {ok : Option Str}
    (hp : pop_random_key r db = (ok, db')) {t : Str}
    (h : t ∈ db'.texts) : t ∈ db.texts := by
  by_cases hne : db.pool = []
  · rw [pop_random_key_nil r db hne] at hp
    have hdd : db = db' := congrArg Prod.snd hp
    rw [← hdd] at h
    exact h
  · rw [pop_random_key_cons r db hne] at hp
    have hdb' :
        db' =
          { db with
            pool := db.pool.filter (fun x => x.id != (selectedEntry r db).id) } :=
      (congrArg Prod.snd hp).symm
    subst hdb'
    rw [DB.texts, List.mem_map] at h ⊢
    obtain ⟨x, hx, hxt⟩ := h
    exact ⟨x, (List.filter_sublist db.pool).mem hx, hxt⟩

lemma pop_some_mem {r : Nat} {db : DB} {k : Str} {db' : DB}
    (hp : pop_random_key r db = (some k, db')) : k ∈ db.texts := by
  obtain ⟨hne, hk, -⟩ := pop_some_eq hp
  rw [hk]
  exact List.mem_map_of_mem Entry.key_text (selected_mem hne r)

lemma popSeq_subset : ∀ (rs : List Nat) (db : DB), ∀ k ∈ (popSeq rs db).1, k ∈ db.texts := by
  intro rs
  induction rs with
  | nil => simp [popSeq]
  | cons r rest ih =>
    intro db k hk
    rw [popSeq] at hk
    rcases hp : pop_random_key r db with ⟨ok, db'⟩
    rw [hp] at hk
    cases ok with
    | none =>
      rw [pop_none_eq hp] at hk
      exact ih db k hk
    | some k0 =>
      rcases List.mem_cons.mp hk with rfl | hk'
      · exact pop_some_mem hp
      · exact pop_texts_subset hp (ih db' k hk')

lemma popSeq_nodup : ∀ (rs : List Nat) (db : DB), db.WF → (popSeq rs db).1.Nodup := by
  intro rs
  induction rs with
  | nil => simp [popSeq]
  | cons r rest ih =>
    intro db hWF
    rw [popSeq]
    rcases hp : pop_random_key r db with ⟨ok, db'⟩
    cases ok with
    | none =>
      show (popSeq rest db').1.Nodup
      rw [pop_none_eq hp]
      exact ih db hWF
    | some k =>
      show (k :: (popSeq rest db').1).Nodup
      obtain ⟨-, -, hknot, -, hWF', -⟩ := pop_some_spec hWF hp
      refine List.nodup_cons.mpr ⟨fun hmem => ?_, ih db' hWF'⟩
      exact hknot (popSeq_subset rest db' k hmem)

/-! ## Lemmas about `insertKey` and `add_keys` -/

lemma insertKey_WF {db : DB} (h : db.WF) (k : Str) : (insertKey db k).WF := by
  obtain ⟨hid, htext, hlt, hlog, hloglt⟩ := h
  rw [insertKey]
  by_cases hmem : db.pool.any (fun e => e.key_text = k)
  · rw [if_pos hmem]
    exact ⟨hid, htext, hlt, hlog, hloglt⟩
  · rw [if_neg hmem]
    refine ⟨?_, ?_, ?_, hlog, hloglt⟩
    · rw [List.map_append, List.nodup_append]
      refine ⟨hid, List.nodup_singleton _, ?_⟩
      intro x hx hx1
      simp only [List.map_cons, List.map_nil, List.mem_singleton] at hx1
      rw [List.mem_map] at hx
      obtain ⟨e, he, hex⟩ := hx
      exact absurd (hx1 ▸ hex ▸ hlt e he) (lt_irrefl _)
    · rw [List.map_append, List.nodup_append]
      refine ⟨htext, List.nodup_singleton _, ?_⟩
      intro x hx hx1
      simp only [List.map_cons, List.map_nil, List.mem_singleton] at hx1
      rw [List.mem_map] at hx
      obtain ⟨e, he, hex⟩ := hx
      rw [List.any_eq_true] at hmem
      exact hmem ⟨e, he, by simp [hex, hx1]⟩
    · intro e he
      rcases List.mem_append.mp he with he | he
      · exact Nat.lt_succ_of_lt (hlt e he)
      · simp only [List.mem_singleton] at he
        rw [he]
        exact Nat.lt_succ_self _

lemma insertKey_texts (db : DB) (k : Str) (t : Str) :
    t ∈ (insertKey db k).texts ↔ t ∈ db.texts ∨ t = k := by
  rw [insertKey]
  by_cases hmem : db.pool.any (fun e => e.key_text = k)
  · rw [if_pos hmem]
    constructor
    · exact Or.inl
    · rintro (h | rfl)
      · exact h
      · rw [List.any_eq_true] at hmem
        obtain ⟨e, he, hek⟩ := hmem
        rw [DB.texts, List.mem_map]
        exact ⟨e, he, by simpa using hek⟩
  · rw [if_neg hmem]
    show t ∈ (db.pool ++ [Entry.mk db.nextId k]).map Entry.key_text ↔
      t ∈ db.texts ∨ t = k
    rw [List.map_append, List.mem_append]
    simp [DB.texts]

/-- The body of the insert loop in `add_keys`: strip, skip empties,
`INSERT OR IGNORE` the rest. -/
lemma add_keys_foldl_spec : ∀ (keys : List Str) (db : DB), db.WF →
    (keys.foldl (fun d k =>
        let k := pyStrip k
        if k.isEmpty then d else insertKey d k) db).WF ∧
    ∀ t, t ∈ (keys.foldl (fun d k =>
        let k := pyStrip k
        if k.isEmpty then d else insertKey d k) db).texts ↔
      t ∈ db.texts ∨ ∃ k0 ∈ keys, pyStrip k0 = t ∧ t ≠ [] := by
  intro keys
  induction keys with
  | nil =>
    intro db hWF
    simpa using hWF
  | cons k0 ks ih =>
    intro db hWF
    rw [List.foldl_cons]
    by_cases hk0 : (pyStrip k0).isEmpty
    · simp only [hk0, if_pos]
      obtain ⟨ihWF, ihtexts⟩ := ih db hWF
      refine ⟨ihWF, fun t => ?_⟩
      rw [ihtexts t]
      constructor
      · rintro (h | ⟨kk, hkk, hkt, htne⟩)
        · exact Or.inl h
        · exact Or.inr ⟨kk, List.mem_cons_of_mem _ hkk, hkt, htne⟩
      · rintro (h | ⟨kk, hkk, hkt, htne⟩)
        · exact Or.inl h
        · rcases List.mem_cons.mp hkk with rfl | hkk'
          · rw [List.isEmpty_iff] at hk0
            exact absurd (hk0 ▸ hkt).symm htne
          · exact Or.inr ⟨kk, hkk', hkt, htne⟩
    · simp only [hk0, if_neg, Bool.false_eq_true, if_false]
      obtain ⟨ihWF, ihtexts⟩ := ih (insertKey db (pyStrip k0)) (insertKey_WF hWF _)
      refine ⟨ihWF, fun t => ?_⟩
      rw [ihtexts t, insertKey_texts]
      have hk0ne : pyStrip k0 ≠ [] := by
        intro hnil
        rw [hnil] at hk0
        simp at hk0
      constructor
      · rintro ((h | rfl) | ⟨kk, hkk, hkt, htne⟩)
        · exact Or.inl h
        · exact Or.inr ⟨k0, List.mem_cons_self _ _, rfl, hk0ne⟩
        · exact Or.inr ⟨kk, List.mem_cons_of_mem _ hkk, hkt, htne⟩
      · rintro (h | ⟨kk, hkk, hkt, htne⟩)
        · exact Or.inl (Or.inl h)
        · rcases List.mem_cons.mp hkk with rfl | hkk'
          · exact Or.inl (Or.inr hkt.symm)
          · exact Or.inr ⟨kk, hkk', hkt, htne⟩

lemma add_keys_returns_count (keys : List Str) (db : DB) :
    (add_keys keys db).1 = count_keys (add_keys keys db).2 := by
  rw [add_keys]
  by_cases h : keys.isEmpty
  · rw [if_pos h]
  · rw [if_neg h]

/-! ## Lemmas about the issuance log -/

lemma log_issued_WF {db : DB} (h : db.WF) (u : Int) (k : Str) (now : Int) :
    (log_issued u k now db).WF := by
  obtain ⟨hid, htext, hlt, hlog, hloglt⟩ := h
  refine ⟨hid, htext, hlt, ?_, ?_⟩
  · rw [log_issued]
    rw [List.map_append, List.nodup_append]
    refine ⟨hlog, List.nodup_singleton _, ?_⟩
    intro x hx hx1
    simp only [List.map_cons, List.map_nil, List.mem_singleton] at hx1
    rw [List.mem_map] at hx
    obtain ⟨e, he, hex⟩ := hx
    exact absurd (hx1 ▸ hex ▸ hloglt e he) (lt_irrefl _)
  · intro e he
    rcases List.mem_append.mp he with he | he
    · exact Nat.lt_succ_of_lt (hloglt e he)
    · simp only [List.mem_singleton] at he
      rw [he]
      exact Nat.lt_succ_self _

/-- Appending a row whose id dominates the list makes it the
`ORDER BY id DESC LIMIT 1` result. -/
lemma maxByLogId_append_max {l : List LogEntry} {e : LogEntry}
    (h : ∀ x ∈ l, x.logId < e.logId) : maxByLogId (l ++ [e]) = some e := by
  induction l with
  | nil => rfl
  | cons a t ih =>
    rw [List.cons_append, maxByLogId]
    rw [ih (fun x hx => h x (List.mem_cons_of_mem _ hx))]
    have ha : a.logId < e.logId := h a (List.mem_cons_self _ _)
    show (if a.logId ≤ e.logId then some e else some a) = some e
    rw [if_pos (Nat.le_of_lt ha)]

lemma get_last_issued_log_issued {db : DB} (h : db.WF) (u : Int) (k : Str) (now : Int) :
    get_last_issued u (log_issued u k now db) = some (k, toLocal now) := by
  obtain ⟨-, -, -, -, hloglt⟩ := h
  rw [get_last_issued, log_issued]
  simp only [List.filter_append]
  have hnew : (List.filter (fun e => e.user_id == u)
      [(⟨db.nextLogId, u, k, now⟩ : LogEntry)]) = [⟨db.nextLogId, u, k, now⟩] := by
    simp [List.filter]
  rw [hnew]
  rw [maxByLogId_append_max]
  intro x hx
  exact hloglt x ((List.filter_sublist db.log).mem hx)

lemma get_last_issued_none {db : DB} (u : Int)
    (h : ∀ e ∈ db.log, e.user_id ≠ u) : get_last_issued u db = none := by
  rw [get_last_issued]
  have : db.log.filter (fun e => e.user_id == u) = [] := by
    rw [List.filter_eq_nil_iff]
    intro e he
    simpa using h e he
  rw [this]
  rfl

/-! ## Claim theorems -/

/-- C1: for every well-formed pool state, `pop_random_key` returns the
empty signal if and only if the pool is empty; a successful pop returns a
key currently stored in the pool, removes exactly that key (the pool size
strictly decreases by one, the returned text is gone, every other text is
untouched); and across any sequence of successful pops no key text is
ever returned twice. -/
theorem pop_random_key_correct (db : DB) (h : db.WF) :
    (∀ r, ((pop_random_key r db).1 = none ↔ db.pool = [])) ∧
    (∀ r k, (pop_random_key r db).1 = some k →
      k ∈ db.texts ∧
      (pop_random_key r db).2.pool.length + 1 = db.pool.length ∧
      k ∉ (pop_random_key r db).2.texts ∧
      (∀ t, t ≠ k → (t ∈ (pop_random_key r db).2.texts ↔ t ∈ db.texts))) ∧
    (∀ rs, (popSeq rs db).1.Nodup) := by
  refine ⟨fun r => pop_none_iff r db, fun r k hk => ?_, fun rs => popSeq_nodup rs db h⟩
  rcases hres : pop_random_key r db with ⟨ok, db'⟩
  rw [hres] at hk
  have hok : ok = some k := hk
  subst hok
  have s := pop_some_spec h hres
  exact ⟨s.1, s.2.1, s.2.2.1, s.2.2.2.1⟩

/-- Witness for C1 at a concrete two-key database. -/
theorem pop_random_key_correct_witness :
    ((pop_random_key 0 dbW).1 = none ↔ dbW.pool = []) ∧
    "a".data ∈ dbW.texts ∧
    (popSeq [0, 0, 0] dbW).1.Nodup :=
  ⟨(pop_random_key_correct dbW (by decide)).1 0,
   ((pop_random_key_correct dbW (by decide)).2.1 0 "a".data (by decide)).1,
   (pop_random_key_correct dbW (by decide)).2.2 [0, 0, 0]⟩

/-- C3: for every well-formed pool state and input batch, `add_keys`
returns the pool's total size after insertion, inserts each normalized
(stripped, nonempty) token, silently ignores tokens already present
(the resulting texts are exactly the old ones together with the stripped
nonempty batch tokens), and in particular the batch parsed from
`"k1,k1,k2"` grows an empty pool to exactly the 2 keys `k1` and `k2`,
with the returned total reflecting that. -/
theorem add_keys_correct (keys : List Str) (db : DB) (h : db.WF) :
    (add_keys keys db).1 = count_keys (add_keys keys db).2 ∧
    (∀ k ∈ keys, pyStrip k ≠ [] → pyStrip k ∈ (add_keys keys db).2.texts) ∧
    (∀ t, t ∈ (add_keys keys db).2.texts ↔
      t ∈ db.texts ∨ ∃ k0 ∈ keys, pyStrip k0 = t ∧ t ≠ []) ∧
    (add_keys (split_keys "k1,k1,k2".data) emptyDB).1 = 2 ∧
    (add_keys (split_keys "k1,k1,k2".data) emptyDB).2.texts =
      ["k1".data, "k2".data] := by
  have htexts : ∀ t, t ∈ (add_keys keys db).2.texts ↔
      t ∈ db.texts ∨ ∃ k0 ∈ keys, pyStrip k0 = t ∧ t ≠ [] := by
    by_cases hk : keys.isEmpty
    · rw [add_keys, if_pos hk]
      have hnil : keys = [] := List.isEmpty_iff.mp hk
      subst hnil
      simp
    · rw [add_keys, if_neg hk]
      exact (add_keys_foldl_spec keys db h).2
  refine ⟨add_keys_returns_count keys db, ?_, htexts, by decide, by decide⟩
  intro k hkmem hkne
  exact (htexts (pyStrip k)).mpr (Or.inr ⟨k, hkmem, rfl, hkne⟩)

/-- Witness for C3 at a concrete one-key batch on the empty database. -/
theorem add_keys_correct_witness :
    (add_keys ["a".data] emptyDB).1 =
      count_keys (add_keys ["a".data] emptyDB).2 ∧
    "a".data ∈ (add_keys ["a".data] emptyDB).2.texts :=
  ⟨(add_keys_correct ["a".data] emptyDB (by decide)).1,
   (add_keys_correct ["a".data] emptyDB (by decide)).2.1 "a".data (by decide)
     (by decide)⟩

/-- C4: the key-list parser splits `"a, b;c\nd e"` into exactly
`["a","b","c","d","e"]` in that order; it also trims tokens, drops
empties, de-duplicates preserving first-seen order, and is
case-sensitive. -/
theorem split_keys_example :
    split_keys "a, b;c\nd e".data =
      ["a".data, "b".data, "c".data, "d".data, "e".data] ∧
    split_keys "a,b,a;b b".data = ["a".data, "b".data] ∧
    split_keys "a A a".data = ["a".data, "A".data] ∧
    split_keys "  a ,\t b , a ".data = ["a".data, "b".data] := by
  decide

/-- C5: on a text message in the `waiting_for_keys` state, a non-admin
sender clears the state to idle with a permission-denied reply and no
store modification; an admin sender whose text parses to zero tokens
keeps the state with a retry prompt and no store modification; an admin
sender with at least one token triggers `add_keys`, clears the state to
idle and gets the new total (the count after insertion) reported. -/
theorem add_keys_collect_correct (admin uid : Int) (mtext : Option Str) (db : DB) :
    (is_admin_user_id admin uid = false →
      add_keys_collect admin uid mtext db =
        (db, ConvState.idle, Reply.permissionDenied)) ∧
    (is_admin_user_id admin uid = true →
      (split_keys (pyStrip (mtext.getD [])) = [] →
        add_keys_collect admin uid mtext db =
          (db, ConvState.waiting_for_keys, Reply.askRetry)) ∧
      (split_keys (pyStrip (mtext.getD [])) ≠ [] →
        add_keys_collect admin uid mtext db =
          ((add_keys (split_keys (pyStrip (mtext.getD []))) db).2, ConvState.idle,
           Reply.addedTotal (add_keys (split_keys (pyStrip (mtext.getD []))) db).1) ∧
        (add_keys (split_keys (pyStrip (mtext.getD []))) db).1 =
          count_keys (add_keys (split_keys (pyStrip (mtext.getD []))) db).2)) := by
  refine ⟨fun hna => ?_, fun ha => ⟨fun hempty => ?_, fun hne => ?_⟩⟩
  · rw [add_keys_collect, hna]
    rfl
  · rw [add_keys_collect, ha]
    simp only [Bool.not_true, Bool.false_eq_true, if_false]
    rw [if_pos (List.isEmpty_iff.mpr hempty)]
  · refine ⟨?_, add_keys_returns_count _ _⟩
    rw [add_keys_collect, ha]
    simp only [Bool.not_true, Bool.false_eq_true, if_false]
    rw [if_neg (by simpa [List.isEmpty_iff] using hne)]

/-- Witness for C5: a non-admin sender in the collect state is denied and
reset to idle. -/
theorem add_keys_collect_correct_witness :
    add_keys_collect 1 2 (some "k1".data) emptyDB =
      (emptyDB, ConvState.idle, Reply.permissionDenied) :=
  (add_keys_collect_correct 1 2 (some "k1".data) emptyDB).1 (by decide)

/-- C6: a non-admin pressing the get-key button gets a permission-denied
reply and the store is untouched: the whole database (hence the pool size
and the issuance log) is unchanged. -/
theorem cb_get_year_key_nonadmin (admin uid : Int) (r : Nat) (now : Int) (db : DB)
    (h : is_admin_user_id admin uid = false) :
    cb_get_year_key admin uid r now db = (db, Reply.permissionDenied) ∧
    count_keys (cb_get_year_key admin uid r now db).1 = count_keys db ∧
    (cb_get_year_key admin uid r now db).1.log = db.log := by
  have he : cb_get_year_key admin uid r now db = (db, Reply.permissionDenied) := by
    rw [cb_get_year_key, h]
    rfl
  exact ⟨he, by rw [he], by rw [he]⟩

/-- Witness for C6 at a concrete non-admin request. -/
theorem cb_get_year_key_nonadmin_witness :
    cb_get_year_key 7 3 0 0 emptyDB = (emptyDB, Reply.permissionDenied) :=
  (cb_get_year_key_nonadmin 7 3 0 0 emptyDB (by decide)).1

/-- C7: `get_last_issued` returns the empty signal for a user with no
records; after logging an issuance for `u` it returns that key with the
timestamp converted to the fixed UTC+6 offset; in particular after
issuing K1 then K2 to `u` it returns K2. -/
theorem get_last_issued_correct (db : DB) (u : Int) (h : db.WF) :
    ((∀ e ∈ db.log, e.user_id ≠ u) → get_last_issued u db = none) ∧
    (∀ k now, get_last_issued u (log_issued u k now db) = some (k, toLocal now)) ∧
    (∀ k1 t1 k2 t2,
      get_last_issued u (log_issued u k2 t2 (log_issued u k1 t1 db)) =
        some (k2, toLocal t2)) := by
  refine ⟨get_last_issued_none u, fun k now => get_last_issued_log_issued h u k now, ?_⟩
  intro k1 t1 k2 t2
  exact get_last_issued_log_issued (log_issued_WF h u k1 t1) u k2 t2

/-- Witness for C7: issuing K1 then K2 to user 5 and asking for the last
issuance returns K2 with the UTC+6 timestamp. -/
theorem get_last_issued_correct_witness :
    get_last_issued 5
        (log_issued 5 "K2".data 100 (log_issued 5 "K1".data 50 emptyDB)) =
      some ("K2".data, toLocal 100) :=
  (get_last_issued_correct emptyDB 5 (by decide)).2.2 "K1".data 50 "K2".data 100

/-- C8: when the `BOT_TOKEN` environment variable is unset, `BOT_TOKEN`
falls back to the hardcoded real token, which differs from the
placeholder, so the startup guard does NOT refuse to start: the process
serves traffic with the embedded credential.  The guard only fires when
the variable is explicitly set to the placeholder string. -/
theorem bot_token_unset_starts :
    BOT_TOKEN none = fallbackToken ∧
    BOT_TOKEN none ≠ placeholderToken ∧
    startup_refuses none = false ∧
    startup_refuses (some placeholderToken) = true := by
  decide

/-- C9: calling the store's `add_keys` with an empty token list performs
no insertion (the state is returned unchanged) and returns the current
pool size, identical to `count_keys`. -/
theorem add_keys_nil (db : DB) : add_keys [] db = (count_keys db, db) :=
  rfl

/-- C10: every token produced by `split_keys` is non-empty; no token
contains a comma, a semicolon, or a whitespace character; and the
returned list is pairwise distinct. -/
theorem split_keys_tokens_invariant (text : Str) :
    (∀ k ∈ split_keys text, k ≠ []) ∧
    (∀ k ∈ split_keys text, ∀ c ∈ k, c ≠ ',' ∧ c ≠ ';' ∧ pyIsSpace c = false) ∧
    (split_keys text).Nodup := by
  by_cases htext : text.isEmpty
  · rw [split_keys, if_pos htext]
    simp
  · have heq : split_keys text =
        dedupKeepFirst
          ((((splitRuns isLineBreak (replaceSeps (pyStrip text))).map pyStrip).filter
              (fun p => !p.isEmpty)).flatMap (fun line =>
            ((splitRuns pyIsSpace line).map pyStrip).filter (fun p => !p.isEmpty))) := by
      rw [split_keys, if_neg htext]
    rw [heq]
    refine ⟨fun k hk => ?_, fun k hk c hc => ?_, dedupKeepFirst_nodup _⟩
    · have hk' := dedupKeepFirst_subset hk
      rw [List.mem_flatMap] at hk'
      obtain ⟨line, -, hkline⟩ := hk'
      have := (List.mem_filter.mp hkline).2
      intro hnil
      rw [hnil] at this
      simp at this
    · have hk' := dedupKeepFirst_subset hk
      rw [List.mem_flatMap] at hk'
      obtain ⟨line, hline, hkline⟩ := hk'
      have hkmap := (List.mem_filter.mp hkline).1
      rw [List.mem_map] at hkmap
      obtain ⟨part, hpart, hkpart⟩ := hkmap
      have hcpart : c ∈ part := mem_pyStrip (hkpart ▸ hc)
      obtain ⟨-, hchars⟩ := splitRuns_spec hpart
      have hcspace : pyIsSpace c = false := (hchars c hcpart).1
      have hcline : c ∈ line := (hchars c hcpart).2
      have hlinemap := (List.mem_filter.mp hline).1
      rw [List.mem_map] at hlinemap
      obtain ⟨line0, hline0, hlineline0⟩ := hlinemap
      have hcline0 : c ∈ line0 := mem_pyStrip (hlineline0 ▸ hcline)
      obtain ⟨-, hchars0⟩ := splitRuns_spec hline0
      have hctxt : c ∈ replaceSeps (pyStrip text) := (hchars0 c hcline0).2
      obtain ⟨hc1, hc2⟩ := replaceSeps_no_sep hctxt
      exact ⟨hc1, hc2, hcspace⟩

/-- Witness for C10 at a concrete input, token and character. -/
theorem split_keys_tokens_invariant_witness :
    "k1".data ≠ [] ∧
    ('k' ≠ ',' ∧ 'k' ≠ ';' ∧ pyIsSpace 'k' = false) ∧
    (split_keys "k1, k2".data).Nodup :=
  ⟨(split_keys_tokens_invariant "k1, k2".data).1 "k1".data (by decide),
   (split_keys_tokens_invariant "k1, k2".data).2.1 "k1".data (by decide) 'k'
     (by decide),
   (split_keys_tokens_invariant "k1, k2".data).2.2⟩

end KeyBot
